import Mathlib

/-
Verification of the dataset registry and wrapper layer of torchdistill
(src/torchdistill/datasets/registry.py, src/torchdistill/datasets/wrapper.py,
src/torchdistill/core/registry.py), shallowly embedded in Lean 4.

Python dicts are modelled as association lists with first-match lookup
(insertion prepends, so later insertions shadow earlier ones, matching
dict overwrite semantics as observed through lookup).  numpy arrays of
indices are modelled as lists of naturals.  Random draws are modelled as
explicit function parameters constrained by hypotheses.  File systems are
modelled as partial maps from paths to contents.  Python floats are
modelled as rationals.
-/

/-- A Python dict observed through lookup: an association list where the
most recent insertion for a key wins. -/
abbrev PyDict (V : Type) : Type := List (String × V)

/-- Dict lookup: first matching key. -/
def dictLookup {V : Type} (d : PyDict V) (k : String) : Option V :=
  List.lookup k d

/-- Dict item assignment d[k] = v: prepend, shadowing older entries. -/
def dictInsert {V : Type} (d : PyDict V) (k : String) (v : V) : PyDict V :=
  (k, v) :: d

/-- Dict.update: entries of the updating dict shadow those of the base. -/
def dictUpdate {V : Type} (base upd : PyDict V) : PyDict V :=
  upd ++ base

/-- Dict membership test, as used by the in operator. -/
def dictMem {V : Type} (d : PyDict V) (k : String) : Bool :=
  (dictLookup d k).isSome

/-- Python exceptions raised by the registry lookup code. -/
inductive PyErr where
  | keyError : String → PyErr
  | valueError : String → PyErr
deriving DecidableEq, Repr

/- ---------------------------------------------------------------------
core/registry.py
--------------------------------------------------------------------- -/

/-- register_forward_proc_func (core/registry.py): computes the key from
the explicit keyword when given, else from the function name, stores the
function there and returns it unchanged. -/
def register_forward_proc_func {V : Type} (d : PyDict V) (key : Option String)
    (funcName : String) (func : V) : PyDict V × V :=
  let k := match key with
    | none => funcName
    | some k => k
  (dictInsert d k func, func)

/-- get_forward_proc_func (core/registry.py): func_name None falls back to
the entry under forward_batch_only (a plain subscript, so a missing entry
is a KeyError); a registered name returns its entry; any other name raises
ValueError.  The registry is passed through unchanged (the function body
contains no assignment to it). -/
def get_forward_proc_func {V : Type} (d : PyDict V) (funcName : Option String) :
    Except PyErr V × PyDict V :=
  match funcName with
  | none =>
    match dictLookup d "forward_batch_only" with
    | some f => (Except.ok f, d)
    | none => (Except.error (PyErr.keyError "forward_batch_only"), d)
  | some n =>
    if dictMem d n then
      match dictLookup d n with
      | some f => (Except.ok f, d)
      | none => (Except.error (PyErr.keyError n), d)
    else
      (Except.error (PyErr.valueError
        ("No forward process function `" ++ n ++ "` registered")), d)

/- ---------------------------------------------------------------------
datasets/registry.py
--------------------------------------------------------------------- -/

/-- Module initialization of datasets/registry.py: DATASET_DICT starts as
dict() and is updated with the whole torchvision.datasets.__dict__,
modelled here as an arbitrary association list tv. -/
def DATASET_DICT_init {V : Type} (tv : PyDict V) : PyDict V :=
  dictUpdate ([] : PyDict V) tv

/-- register_dataset (datasets/registry.py): computes the key from the
explicit keyword when given, else from the class or function name, stores
the argument there and returns it unchanged. -/
def register_dataset {V : Type} (d : PyDict V) (key : Option String)
    (clsName : String) (clsOrFunc : V) : PyDict V × V :=
  let k := match key with
    | none => clsName
    | some k => k
  (dictInsert d k clsOrFunc, clsOrFunc)

/- ---------------------------------------------------------------------
datasets/wrapper.py : default_idx2subpath
--------------------------------------------------------------------- -/

/-- Decimal digit string of a natural number, most significant digit
first, as a list of digits; empty for 0 (str(0) is handled by padding). -/
def decimalDigits (n : ℕ) : List ℕ :=
  (Nat.digits 10 n).reverse

/-- Python format {:04d} on a non-negative int: the decimal string
left-padded with zeros to at least four characters. -/
def format04d (n : ℕ) : List ℕ :=
  List.replicate (4 - (decimalDigits n).length) 0 ++ decimalDigits n

/-- Python slice s[-4:]: the last four characters (the whole string when
it is shorter than four). -/
def lastFour (l : List ℕ) : List ℕ :=
  l.drop (l.length - 4)

/-- default_idx2subpath (wrapper.py): os.path.join of the last four
characters of the zero-padded decimal string with the full string,
modelled as the (parent directory, file name) pair. -/
def default_idx2subpath (n : ℕ) : List ℕ × List ℕ :=
  (lastFour (format04d n), format04d n)

/- ---------------------------------------------------------------------
datasets/wrapper.py : BaseDatasetWrapper and LeafDatasetWrapper
--------------------------------------------------------------------- -/

/-- A torch.utils.data.Dataset yielding (sample, target) pairs, as the
wrapper layer observes it: __getitem__ and __len__. -/
structure PyDataset (α β : Type) where
  getitem : ℕ → α × β
  len : ℕ

/-- BaseDatasetWrapper.__getitem__: the original pair extended with a
fresh empty supplementary dict. -/
def baseGetitem {α β γ : Type} (org : PyDataset α β) (index : ℕ) :
    α × β × PyDict γ :=
  ((org.getitem index).1, (org.getitem index).2, [])

/-- BaseDatasetWrapper.__len__ (inherited by CacheableDataset,
CRDDatasetWrapper and SSKDDatasetWrapper): the length of the original
dataset. -/
def baseLen {α β : Type} (org : PyDataset α β) : ℕ :=
  org.len

/-- A dataset yielding (feats, waveform, target) triples, as
LeafDatasetWrapper expects from its original dataset. -/
structure PyDataset3 (α β γ : Type) where
  getitem : ℕ → α × β × γ
  len : ℕ

/-- LeafDatasetWrapper.__getitem__: the original triple extended with a
fresh empty dict. -/
def leafGetitem {α β γ δ : Type} (org : PyDataset3 α β γ) (index : ℕ) :
    α × β × γ × PyDict δ :=
  ((org.getitem index).1, (org.getitem index).2.1, (org.getitem index).2.2, [])

/-- LeafDatasetWrapper.__len__: the length of the original dataset. -/
def leafLen {α β γ : Type} (org : PyDataset3 α β γ) : ℕ :=
  org.len

/- ---------------------------------------------------------------------
datasets/wrapper.py : CacheableDataset
--------------------------------------------------------------------- -/

/-- os.path.join on two components: the second wins when absolute,
otherwise the components are joined with a slash unless the first is
empty or already ends in one. -/
def osPathJoin (a b : String) : String :=
  if b.data.head? = some '/' then b
  else if a = "" then b
  else if a.data.getLast? = some '/' then a ++ b
  else a ++ "/" ++ b

/-- The attributes CacheableDataset.__init__ stores (the idx2subpath_func
default of str is irrelevant to the claims and is left to the caller;
the source field name has the source's spelling, idx2subath_func). -/
structure CacheableState (α β : Type) where
  org : PyDataset α β
  cache_dir_path : String
  idx2subath_func : ℕ → String
  ext : String

/-- The supplementary dict CacheableDataset.__getitem__ builds: the entry
cached_data is present exactly when the option is some. -/
structure CacheSupp (γ : Type) where
  cached_data : Option γ
  cache_file_path : String

/-- CacheableDataset.__getitem__: the file system is a map from paths to
contents; file_util.check_if_exists is membership in its domain and
torch.load reads the content. -/
def cacheableGetitem {α β γ : Type} (st : CacheableState α β)
    (fs : String → Option γ) (index : ℕ) : α × β × CacheSupp γ :=
  let s := (st.org.getitem index).1
  let t := (st.org.getitem index).2
  let cacheFilePath := osPathJoin st.cache_dir_path (st.idx2subath_func index ++ st.ext)
  (s, t, { cached_data := fs cacheFilePath, cache_file_path := cacheFilePath })

/- ---------------------------------------------------------------------
datasets/wrapper.py : CRDDatasetWrapper.__init__
--------------------------------------------------------------------- -/

/-- Indexing into a list of index arrays, with the empty array as the
out-of-range default. -/
def nthList (l : List (List ℕ)) (i : ℕ) : List ℕ :=
  l.getD i []

/-- One step of the positive-index loop: append sample index i to the
bucket of its label. -/
def addPositive (buckets : List (List ℕ)) (label i : ℕ) : List (List ℕ) :=
  buckets.set label (nthList buckets label ++ [i])

/-- The first loop of CRDDatasetWrapper.__init__: start from num_classes
empty buckets and append each of the num_samples sample indices to the
bucket of its label. -/
def buildPositives (labels : List ℕ) (numClasses numSamples : ℕ) : List (List ℕ) :=
  (List.range numSamples).foldl
    (fun acc i => addPositive acc (labels.getD i 0) i)
    (List.replicate numClasses [])

/-- The second loop of CRDDatasetWrapper.__init__: negatives of class i
are the concatenation, in class order, of the positives of every other
class. -/
def buildNegatives (positives : List (List ℕ)) : List (List ℕ) :=
  (List.range positives.length).map (fun i =>
    (List.range positives.length).foldl
      (fun acc j => if j = i then acc else acc ++ nthList positives j) [])

/-- Python int() on a rational: truncation toward zero (T-division of the
numerator by the denominator). -/
def pyInt (q : ℚ) : ℤ :=
  Int.tdiv q.num q.den

/-- The original dataset as CRDDatasetWrapper.__init__ observes it: a
dataset of (sample, integer label) pairs with the torchvision attributes
classes and targets. -/
structure CRDSource (α : Type) where
  getitem : ℕ → α × ℕ
  len : ℕ
  classes : List String
  targets : List ℕ

/-- The attributes CRDDatasetWrapper.__init__ stores. -/
structure CRDWrapper (α : Type) where
  org : CRDSource α
  num_negative_samples : ℕ
  mode : String
  cls_positives : List (List ℕ)
  cls_negatives : List (List ℕ)

/-- The negative index arrays of CRDDatasetWrapper.__init__ before any
ratio-based subsampling, built from num_classes = len(org_dataset.classes),
num_samples = len(org_dataset) and labels = org_dataset.targets. -/
def crdNegsPre {α : Type} (org : CRDSource α) : List (List ℕ) :=
  buildNegatives (buildPositives org.targets org.classes.length org.len)

/-- The subsample size n = int(len(cls_negatives[0]) * ratio) of
CRDDatasetWrapper.__init__, computed once from class 0 (numpy slicing
never sees a negative n here, so the int is taken as a natural). -/
def crdSubN {α : Type} (org : CRDSource α) (ratio : ℚ) : ℕ :=
  (pyInt (((nthList (crdNegsPre org) 0).length : ℚ) * ratio)).toNat

/-- CRDDatasetWrapper.__init__: builds the class-wise positive and
negative index arrays and, when 0 < ratio < 1, replaces each negative
array by a random permutation of it truncated to n computed from class 0.
np.random.permutation is modelled by the parameter perm (one permutation
per class); np.asarray is the identity on this model. -/
def crdInit {α : Type} (org : CRDSource α) (numNegativeSamples : ℕ)
    (mode : String) (ratio : ℚ) (perm : ℕ → List ℕ → List ℕ) : CRDWrapper α :=
  { org := org, num_negative_samples := numNegativeSamples, mode := mode,
    cls_positives := buildPositives org.targets org.classes.length org.len,
    cls_negatives :=
      if 0 < ratio ∧ ratio < 1 then
        (List.range org.classes.length).map
          (fun i => (perm i (nthList (crdNegsPre org) i)).take (crdSubN org ratio))
      else crdNegsPre org }

/- ---------------------------------------------------------------------
datasets/wrapper.py : CRDDatasetWrapper.__getitem__
--------------------------------------------------------------------- -/

/-- The supplementary dict CRDDatasetWrapper.__getitem__ builds. -/
structure CRDSupp where
  pos_idx : ℕ
  contrast_idx : List ℕ
deriving DecidableEq, Repr

/-- CRDDatasetWrapper.__getitem__: picks a positive index (the queried
index in exact mode, a random element of the positives of the target
class in relax mode, NotImplementedError otherwise, modelled as none),
draws num_negative_samples negative indices with replacement exactly when
the negative array of the target class is too short, and stacks the
positive in front of them.  np.random.choice for one element is modelled
by choosePos and for many by chooseNeg. -/
def crdGetitem {α : Type} (w : CRDWrapper α) (choosePos : List ℕ → ℕ)
    (chooseNeg : List ℕ → ℕ → Bool → List ℕ) (index : ℕ) :
    Option (α × ℕ × CRDSupp) :=
  let s := (w.org.getitem index).1
  let target := (w.org.getitem index).2
  let posIdx? : Option ℕ :=
    if w.mode = "exact" then some index
    else if w.mode = "relax" then some (choosePos (nthList w.cls_positives target))
    else none
  posIdx?.map (fun posIdx =>
    let negArr := nthList w.cls_negatives target
    let replace := decide (negArr.length < w.num_negative_samples)
    let negIdx := chooseNeg negArr w.num_negative_samples replace
    (s, target, { pos_idx := index, contrast_idx := posIdx :: negIdx }))

/- ---------------------------------------------------------------------
datasets/wrapper.py : SSKDDatasetWrapper
--------------------------------------------------------------------- -/

/-- A torchvision-style dataset with a transform attribute applied to
the raw sample by __getitem__. -/
structure VisionDataset (σ β : Type) where
  rawItem : ℕ → σ × β
  transform : Option (σ → σ)
  len : ℕ

/-- __getitem__ of a torchvision-style dataset: the transform, when set,
is applied to the raw sample; the target passes through. -/
def visionGetitem {σ β : Type} (d : VisionDataset σ β) (index : ℕ) : σ × β :=
  match d.transform with
  | some f => (f (d.rawItem index).1, (d.rawItem index).2)
  | none => ((d.rawItem index).1, (d.rawItem index).2)

/-- The state after SSKDDatasetWrapper.__init__: the wrapper and the
mutated original dataset it holds. -/
structure SSKDWrapper (σ β : Type) where
  org : VisionDataset σ β
  transform : Option (σ → σ)

/-- SSKDDatasetWrapper.__init__: moves the transform of the original
dataset onto the wrapper, leaving None behind on the original dataset. -/
def sskdInit {σ β : Type} (org : VisionDataset σ β) : SSKDWrapper σ β :=
  { org := { org with transform := none }, transform := org.transform }

/-- CacheableDataset.__len__, inherited from BaseDatasetWrapper: the
length of the original dataset. -/
def cacheableLen {α β : Type} (st : CacheableState α β) : ℕ :=
  st.org.len

/-- CRDDatasetWrapper.__len__, inherited from BaseDatasetWrapper: the
length of the original dataset. -/
def crdLen {α : Type} (w : CRDWrapper α) : ℕ :=
  w.org.len

/-- SSKDDatasetWrapper.__len__, inherited from BaseDatasetWrapper: the
length of the original dataset. -/
def sskdLen {σ β : Type} (w : SSKDWrapper σ β) : ℕ :=
  w.org.len

/-- A concrete two-class dataset exercising the CRD wrapper: three
samples with labels 0, 1, 1. -/
def exCRDSource : CRDSource Unit :=
  { getitem := fun i => ((), [0, 1, 1].getD i 0), len := 3,
    classes := ["a", "b"], targets := [0, 1, 1] }

/-- The CRD wrapper over exCRDSource in relax mode with one negative
sample and no ratio-based subsampling. -/
def exCRDWrapper : CRDWrapper Unit :=
  crdInit exCRDSource 1 "relax" 0 (fun _ l => l)

/-- A concrete single-element draw: the first element of the array. -/
def exChoosePos (l : List ℕ) : ℕ :=
  l.headD 0

/-- A concrete many-element draw: the first k elements when drawing
without replacement, k copies of the first element with replacement. -/
def exChooseNeg (l : List ℕ) (k : ℕ) (replace : Bool) : List ℕ :=
  if replace then List.replicate k (l.headD 0) else l.take k

/-- The rational one half, written out so that kernel evaluation never
has to normalize a fraction. -/
def halfQ : ℚ :=
  ⟨1, 2, by decide, by decide⟩

/-- A concrete cacheable-dataset state over a three-sample dataset. -/
def exCacheState : CacheableState ℕ ℕ :=
  { org := { getitem := fun i => (i, i + 10), len := 3 },
    cache_dir_path := "cache", idx2subath_func := fun _ => "x", ext := ".pt" }

/-- A concrete file system with a single cached file. -/
def exFS : String → Option ℕ :=
  fun p => if p = "cache/x.pt" then some 7 else none

/-- A concrete torchvision-style dataset with a transform. -/
def exVision : VisionDataset ℕ ℕ :=
  { rawItem := fun i => (i, i), transform := some (fun s => s + 1), len := 3 }

/-- A concrete rotation on the toy sample type: adds the angle when the
expand flag is set. -/
def exRotate (s a : ℕ) (e : Bool) : ℕ :=
  if e then s + a else s

/-- SSKDDatasetWrapper.__getitem__: stacks the stored transform of the
sample from the (now transform-free) original dataset and of its three
rotations; rotate takes the angle and the expand flag, detach is modelled
abstractly; torch.stack is modelled as the list of the four views.  A
None transform would raise TypeError when called, modelled as none. -/
def sskdGetitem {σ β γ : Type} (w : SSKDWrapper σ β)
    (rotate : σ → ℕ → Bool → σ) (detach : σ → σ) (index : ℕ) :
    Option (List σ × β × PyDict γ) :=
  match w.transform with
  | none => none
  | some f =>
    let s := (visionGetitem w.org index).1
    let t := (visionGetitem w.org index).2
    some ([detach (f s),
           detach (f (rotate s 90 true)),
           detach (f (rotate s 180 true)),
           detach (f (rotate s 270 true))], t, [])

/- ---------------------------------------------------------------------
Theorems
--------------------------------------------------------------------- -/

/-- Claim C3: the base wrapper returns exactly the original (sample,
target) pair extended with an empty supplementary dict, and every wrapper
class of the module has the length of its original dataset. -/
theorem wrapper_composition_spec {α β γ δ : Type} (org : PyDataset α β)
    (cst : CacheableState α β) (w : CRDWrapper α) (sw : SSKDWrapper α β)
    (org3 : PyDataset3 α β γ) (i : ℕ) :
    baseGetitem (γ := δ) org i
      = ((org.getitem i).1, (org.getitem i).2, ([] : PyDict δ)) ∧
    baseLen org = org.len ∧
    cacheableLen cst = cst.org.len ∧
    crdLen w = w.org.len ∧
    sskdLen sw = sw.org.len ∧
    leafLen org3 = org3.len :=
  ⟨rfl, rfl, rfl, rfl, rfl, rfl⟩

/-- Claim C4: get_forward_proc_func falls back to the forward_batch_only
entry when func_name is None, returns the entry of a registered name,
raises ValueError exactly when func_name is neither None nor registered,
and leaves the registry unchanged. -/
theorem get_forward_proc_func_spec {V : Type} (d : PyDict V) :
    (∀ f, dictLookup d "forward_batch_only" = some f →
      (get_forward_proc_func d none).1 = Except.ok f) ∧
    (∀ n f, dictLookup d n = some f →
      (get_forward_proc_func d (some n)).1 = Except.ok f) ∧
    (∀ fn, (∃ msg, (get_forward_proc_func d fn).1
        = Except.error (PyErr.valueError msg)) ↔
      (∃ n, fn = some n ∧ dictLookup d n = none)) ∧
    (∀ fn, (get_forward_proc_func d fn).2 = d) := by
  refine ⟨?_, ?_, ?_, ?_⟩
  · intro f h
    simp [get_forward_proc_func, h]
  · intro n f h
    simp [get_forward_proc_func, dictMem, h]
  · intro fn
    match fn with
    | none =>
      constructor
      · rintro ⟨msg, hmsg⟩
        rcases h : dictLookup d "forward_batch_only" with _ | f <;>
          simp [get_forward_proc_func, h] at hmsg
      · rintro ⟨n, hn, -⟩
        cases hn
    | some n =>
      rcases h : dictLookup d n with _ | f <;>
        simp [get_forward_proc_func, dictMem, h]
  · intro fn
    match fn with
    | none =>
      rcases h : dictLookup d "forward_batch_only" with _ | f <;>
        simp [get_forward_proc_func, h]
    | some n =>
      rcases h : dictLookup d n with _ | f <;>
        simp [get_forward_proc_func, dictMem, h]

/-- Witness for claim C4 on a concrete two-entry registry. -/
theorem get_forward_proc_func_spec_witness :
    (get_forward_proc_func [("forward_batch_only", 0), ("relu", 1)] none).1
      = Except.ok 0 ∧
    (get_forward_proc_func [("forward_batch_only", 0), ("relu", 1)]
        (some "relu")).1 = Except.ok 1 ∧
    ((∃ msg, (get_forward_proc_func [("forward_batch_only", 0), ("relu", 1)]
          (some "gelu")).1 = Except.error (PyErr.valueError msg)) ↔
      (∃ n, (some "gelu" : Option String) = some n ∧
        dictLookup [("forward_batch_only", 0), ("relu", 1)] n = none)) ∧
    (get_forward_proc_func [("forward_batch_only", 0), ("relu", 1)]
        (some "relu")).2 = [("forward_batch_only", 0), ("relu", 1)] :=
  ⟨(get_forward_proc_func_spec [("forward_batch_only", 0), ("relu", 1)]).1
      0 (by decide),
   (get_forward_proc_func_spec [("forward_batch_only", 0), ("relu", 1)]).2.1
      "relu" 1 (by decide),
   (get_forward_proc_func_spec [("forward_batch_only", 0), ("relu", 1)]).2.2.1
      (some "gelu"),
   (get_forward_proc_func_spec [("forward_batch_only", 0), ("relu", 1)]).2.2.2
      (some "relu")⟩

/-- Claim C5: after module initialization DATASET_DICT maps every key of
the torchvision catalog to the same object, and register_dataset stores
its argument under the explicit key when given, else under its name,
returning it unchanged. -/
theorem dataset_registry_spec {V : Type} (tv d : PyDict V) :
    (∀ k v, dictLookup tv k = some v →
      dictLookup (DATASET_DICT_init tv) k = some v) ∧
    (∀ k name cls, dictLookup (register_dataset d (some k) name cls).1 k
      = some cls) ∧
    (∀ name cls, dictLookup (register_dataset d none name cls).1 name
      = some cls) ∧
    (∀ key name cls, (register_dataset d key name cls).2 = cls) := by
  refine ⟨?_, ?_, ?_, ?_⟩
  · intro k v h
    simpa [DATASET_DICT_init, dictUpdate, dictLookup] using h
  · intro k name cls
    simp [register_dataset, dictInsert, dictLookup, List.lookup]
  · intro name cls
    simp [register_dataset, dictInsert, dictLookup, List.lookup]
  · intro key name cls
    rfl

/-- Witness for claim C5 on a concrete one-entry catalog. -/
theorem dataset_registry_spec_witness :
    dictLookup (DATASET_DICT_init [("MNIST", 3)]) "MNIST" = some 3 ∧
    dictLookup (register_dataset (DATASET_DICT_init [("MNIST", 3)])
        (some "kmnist") "KMNIST" 5).1 "kmnist" = some 5 ∧
    dictLookup (register_dataset (DATASET_DICT_init [("MNIST", 3)])
        none "KMNIST" 5).1 "KMNIST" = some 5 ∧
    (register_dataset (DATASET_DICT_init [("MNIST", 3)]) none "KMNIST" 5).2
      = 5 :=
  ⟨(dataset_registry_spec [("MNIST", 3)] (DATASET_DICT_init [("MNIST", 3)])).1
      "MNIST" 3 (by decide),
   (dataset_registry_spec [("MNIST", 3)] (DATASET_DICT_init [("MNIST", 3)])).2.1
      "kmnist" "KMNIST" 5,
   (dataset_registry_spec [("MNIST", 3)] (DATASET_DICT_init [("MNIST", 3)])).2.2.1
      "KMNIST" 5,
   (dataset_registry_spec [("MNIST", 3)] (DATASET_DICT_init [("MNIST", 3)])).2.2.2
      none "KMNIST" 5⟩

/-- Claim C6: CacheableDataset.__getitem__ passes the original sample and
target through, always records the cache file path built from the cache
directory, the subpath of the index and the extension, and records cached
data exactly when a file exists at that path, in which case it is the
loaded content. -/
theorem cacheableGetitem_spec {α β γ : Type} (st : CacheableState α β)
    (fs : String → Option γ) (i : ℕ) :
    (cacheableGetitem st fs i).1 = (st.org.getitem i).1 ∧
    (cacheableGetitem st fs i).2.1 = (st.org.getitem i).2 ∧
    (cacheableGetitem st fs i).2.2.cache_file_path
      = osPathJoin st.cache_dir_path (st.idx2subath_func i ++ st.ext) ∧
    ((cacheableGetitem st fs i).2.2.cached_data.isSome ↔
      (fs (osPathJoin st.cache_dir_path (st.idx2subath_func i ++ st.ext))).isSome) ∧
    (∀ c, fs (osPathJoin st.cache_dir_path (st.idx2subath_func i ++ st.ext))
        = some c →
      (cacheableGetitem st fs i).2.2.cached_data = some c) := by
  refine ⟨rfl, rfl, rfl, Iff.rfl, ?_⟩
  intro c h
  simpa [cacheableGetitem] using h

/-- Witness for claim C6 on a concrete state whose cache file exists. -/
theorem cacheableGetitem_spec_witness :
    (cacheableGetitem exCacheState exFS 1).2.2.cached_data = some 7 ∧
    (cacheableGetitem exCacheState exFS 1).2.2.cache_file_path = "cache/x.pt" :=
  ⟨(cacheableGetitem_spec exCacheState exFS 1).2.2.2.2 7 (by decide),
   by decide⟩

/-- Claim C7: SSKDDatasetWrapper.__getitem__ keeps the target and returns
the stack, in order, of the stored transform of the untransformed original
sample and of its rotations by 90, 180 and 270 degrees with expand set, a
stack of first dimension four. -/
theorem sskdGetitem_spec {σ β γ : Type} (org : VisionDataset σ β)
    (rotate : σ → ℕ → Bool → σ) (detach : σ → σ) (i : ℕ) (f : σ → σ)
    (hf : org.transform = some f) :
    sskdGetitem (γ := γ) (sskdInit org) rotate detach i
      = some ([detach (f (org.rawItem i).1),
               detach (f (rotate (org.rawItem i).1 90 true)),
               detach (f (rotate (org.rawItem i).1 180 true)),
               detach (f (rotate (org.rawItem i).1 270 true))],
              (org.rawItem i).2, []) ∧
    (∀ l t s, sskdGetitem (γ := γ) (sskdInit org) rotate detach i
        = some (l, t, s) → l.length = 4) := by
  have h1 : sskdGetitem (γ := γ) (sskdInit org) rotate detach i
      = some ([detach (f (org.rawItem i).1),
               detach (f (rotate (org.rawItem i).1 90 true)),
               detach (f (rotate (org.rawItem i).1 180 true)),
               detach (f (rotate (org.rawItem i).1 270 true))],
              (org.rawItem i).2, []) := by
    simp [sskdGetitem, sskdInit, visionGetitem, hf]
  refine ⟨h1, ?_⟩
  intro l t s h
  rw [h1] at h
  have h2 := Option.some.inj h
  have h3 : l = [detach (f (org.rawItem i).1),
                 detach (f (rotate (org.rawItem i).1 90 true)),
                 detach (f (rotate (org.rawItem i).1 180 true)),
                 detach (f (rotate (org.rawItem i).1 270 true))] :=
    (congrArg Prod.fst h2).symm
  rw [h3]
  rfl

/-- Witness for claim C7 on a concrete dataset and transform. -/
theorem sskdGetitem_spec_witness :
    sskdGetitem (γ := ℕ) (sskdInit exVision) exRotate id 2
      = some ([3, 93, 183, 273], 2, []) :=
  (sskdGetitem_spec exVision exRotate id 2 (fun s => s + 1) rfl).1

/-- Claim C8: SSKDDatasetWrapper.__init__ moves the transform onto the
wrapper and leaves None behind on the original dataset, keeping its other
attributes, so an original dataset with a transform is mutated. -/
theorem sskdInit_spec {σ β : Type} (org : VisionDataset σ β) :
    (sskdInit org).org.transform = none ∧
    (sskdInit org).org.rawItem = org.rawItem ∧
    (sskdInit org).org.len = org.len ∧
    (sskdInit org).transform = org.transform ∧
    (org.transform ≠ none → (sskdInit org).org ≠ org) := by
  refine ⟨rfl, rfl, rfl, rfl, ?_⟩
  intro h heq
  have h2 := congrArg VisionDataset.transform heq
  exact h h2.symm

/-- Witness for claim C8 on a concrete dataset with a transform. -/
theorem sskdInit_spec_witness :
    (sskdInit exVision).org ≠ exVision :=
  (sskdInit_spec exVision).2.2.2.2 (by simp [exVision])

/-- Indices below 10000 have at most four decimal digits. -/
lemma decimalDigits_length_le_four (n : ℕ) (h : n < 10000) :
    (decimalDigits n).length ≤ 4 := by
  rcases eq_or_ne n 0 with rfl | hn
  · simp [decimalDigits]
  · rw [decimalDigits, List.length_reverse, Nat.digits_len 10 n (by norm_num) hn]
    have h4 : Nat.log 10 n < 4 := by
      apply Nat.log_lt_of_lt_pow hn
      norm_num
      exact h
    omega

/-- Indices of 10000 and above have at least five decimal digits. -/
lemma five_le_decimalDigits_length (n : ℕ) (h : 10000 ≤ n) :
    5 ≤ (decimalDigits n).length := by
  have hn : n ≠ 0 := by omega
  rw [decimalDigits, List.length_reverse, Nat.digits_len 10 n (by norm_num) hn]
  have h4 : 4 ≤ Nat.log 10 n := by
    rw [← Nat.pow_le_iff_le_log (by norm_num) hn]
    norm_num
    exact h
  omega

/-- Claim C10: default_idx2subpath pairs the last four characters of the
zero-padded-to-four-digits decimal string with that full string; below
10000 the parent directory equals the file name, from 10000 on the string
is the plain decimal string and the parent directory is its last four
digits. -/
theorem default_idx2subpath_spec (n : ℕ) :
    default_idx2subpath n = (lastFour (format04d n), format04d n) ∧
    (n < 10000 → (default_idx2subpath n).1 = (default_idx2subpath n).2) ∧
    (10000 ≤ n →
      (default_idx2subpath n).2 = decimalDigits n ∧
      (default_idx2subpath n).1 = lastFour (decimalDigits n) ∧
      (default_idx2subpath n).1.length = 4) := by
  refine ⟨rfl, ?_, ?_⟩
  · intro h
    have h4 := decimalDigits_length_le_four n h
    have hlen : (format04d n).length = 4 := by
      simp only [format04d, List.length_append, List.length_replicate]
      omega
    show lastFour (format04d n) = format04d n
    rw [lastFour, hlen]
    simp
  · intro h
    have h5 := five_le_decimalDigits_length n h
    have hf : format04d n = decimalDigits n := by
      rw [format04d]
      have h0 : 4 - (decimalDigits n).length = 0 := by omega
      rw [h0]
      simp
    refine ⟨hf, ?_, ?_⟩
    · show lastFour (format04d n) = lastFour (decimalDigits n)
      rw [hf]
    · show (lastFour (format04d n)).length = 4
      rw [hf, lastFour, List.length_drop]
      omega

/-- Witness for claim C10 at 123 and 123456. -/
theorem default_idx2subpath_spec_witness :
    (default_idx2subpath 123).1 = (default_idx2subpath 123).2 ∧
    ((default_idx2subpath 123456).2 = decimalDigits 123456 ∧
     (default_idx2subpath 123456).1 = lastFour (decimalDigits 123456) ∧
     (default_idx2subpath 123456).1.length = 4) :=
  ⟨(default_idx2subpath_spec 123).2.1 (by norm_num),
   (default_idx2subpath_spec 123456).2.2 (by norm_num)⟩

/-- Setting a bucket and reading it back at the same index. -/
lemma nthList_set_self (l : List (List ℕ)) (i : ℕ) (x : List ℕ)
    (h : i < l.length) : nthList (l.set i x) i = x := by
  simp [nthList, List.getD_eq_getElem?_getD, List.getElem?_set_self, h]

/-- Setting a bucket leaves the other indices unchanged. -/
lemma nthList_set_ne (l : List (List ℕ)) (i j : ℕ) (x : List ℕ)
    (h : i ≠ j) : nthList (l.set i x) j = nthList l j := by
  simp [nthList, List.getD_eq_getElem?_getD, List.getElem?_set_ne, h]

/-- Reading any index of the initial all-empty bucket list. -/
lemma nthList_replicate (C c : ℕ) :
    nthList (List.replicate C ([] : List ℕ)) c = [] := by
  rcases Nat.lt_or_ge c C with h | h
  · simp [nthList, List.getD_eq_getElem?_getD, List.getElem?_replicate, h]
  · simp [nthList, List.getD_eq_getElem?_getD, List.getElem?_eq_none, h]

/-- Reading an in-range index of a list built by mapping over a range. -/
lemma nthList_map_range (C c : ℕ) (g : ℕ → List ℕ) (hc : c < C) :
    nthList ((List.range C).map g) c = g c := by
  rw [nthList, List.getD_eq_getElem?_getD, List.getElem?_map]
  simp [List.getElem?_range hc]

/-- addPositive preserves the number of buckets. -/
lemma length_addPositive (B : List (List ℕ)) (lab i : ℕ) :
    (addPositive B lab i).length = B.length := by
  simp [addPositive]

/-- Appending an index to its label bucket, read back at the label. -/
lemma nthList_addPositive_self (B : List (List ℕ)) (lab i : ℕ)
    (h : lab < B.length) :
    nthList (addPositive B lab i) lab = nthList B lab ++ [i] :=
  nthList_set_self B lab _ h

/-- Appending an index to its label bucket, read back elsewhere. -/
lemma nthList_addPositive_ne (B : List (List ℕ)) (lab c i : ℕ)
    (h : lab ≠ c) :
    nthList (addPositive B lab i) c = nthList B c :=
  nthList_set_ne B lab c _ h

/-- Invariant of the positive-index loop: starting from any bucket list,
folding a list of in-range-labelled indices appends to bucket c exactly
those processed indices whose label is c, in order. -/
lemma foldl_addPositive (labels : List ℕ) (L : List ℕ) (B : List (List ℕ))
    (hL : ∀ i ∈ L, labels.getD i 0 < B.length) (c : ℕ) :
    nthList (L.foldl (fun acc i => addPositive acc (labels.getD i 0) i) B) c
      = nthList B c ++ L.filter (fun i => decide (labels.getD i 0 = c)) := by
  induction L generalizing B with
  | nil => simp
  | cons i L ih =>
    simp only [List.foldl_cons]
    have hlab : labels.getD i 0 < B.length := hL i (List.mem_cons_self i L)
    have hL2 : ∀ j ∈ L, labels.getD j 0 < (addPositive B (labels.getD i 0) i).length := by
      intro j hj
      rw [length_addPositive]
      exact hL j (List.mem_cons_of_mem _ hj)
    rw [ih (addPositive B (labels.getD i 0) i) hL2]
    by_cases hc : labels.getD i 0 = c
    · rw [hc] at hlab
      rw [hc, nthList_addPositive_self B c i hlab]
      have hc2 : labels[i]?.getD 0 = c := by
        simpa [List.getD_eq_getElem?_getD] using hc
      simp [List.filter_cons, hc2]
    · rw [nthList_addPositive_ne B _ c i hc]
      have hc2 : ¬labels[i]?.getD 0 = c := by
        simpa [List.getD_eq_getElem?_getD] using hc
      simp [List.filter_cons, hc2]

/-- The positive-index loop preserves the number of buckets. -/
lemma length_foldl_addPositive (labels : List ℕ) (L : List ℕ)
    (B : List (List ℕ)) :
    (L.foldl (fun acc i => addPositive acc (labels.getD i 0) i) B).length
      = B.length := by
  induction L generalizing B with
  | nil => rfl
  | cons i L ih => rw [List.foldl_cons, ih, length_addPositive]

/-- buildPositives has one bucket per class. -/
lemma length_buildPositives (labels : List ℕ) (C N : ℕ) :
    (buildPositives labels C N).length = C := by
  rw [buildPositives, length_foldl_addPositive]
  simp

/-- Bucket c of buildPositives is the ordered list of sample indices whose
label is c. -/
lemma buildPositives_nthList (labels : List ℕ) (C N : ℕ)
    (hL : ∀ i ∈ List.range N, labels.getD i 0 < C) (c : ℕ) :
    nthList (buildPositives labels C N) c
      = (List.range N).filter (fun i => decide (labels.getD i 0 = c)) := by
  rw [buildPositives, foldl_addPositive labels (List.range N) _ ?_ c,
    nthList_replicate]
  · rfl
  · intro i hi
    simpa using hL i hi

/-- Membership in a positive bucket. -/
lemma mem_buildPositives (labels : List ℕ) (C N : ℕ)
    (hL : ∀ i ∈ List.range N, labels.getD i 0 < C) (c i : ℕ) :
    i ∈ nthList (buildPositives labels C N) c ↔
      i < N ∧ labels.getD i 0 = c := by
  rw [buildPositives_nthList labels C N hL c]
  simp [List.mem_filter]

/-- Membership after folding concatenation over a list, skipping one
excluded value. -/
lemma mem_foldl_skip (f : ℕ → List ℕ) (e : ℕ) (L : List ℕ) (acc0 : List ℕ)
    (x : ℕ) :
    (x ∈ L.foldl (fun acc j => if j = e then acc else acc ++ f j) acc0) ↔
      x ∈ acc0 ∨ ∃ j ∈ L, j ≠ e ∧ x ∈ f j := by
  induction L generalizing acc0 with
  | nil => simp
  | cons j L ih =>
    simp only [List.foldl_cons]
    by_cases hj : j = e
    · subst hj
      rw [if_pos rfl, ih]
      simp only [List.mem_cons]
      constructor
      · rintro (hx | ⟨j, hjL, hje, hxf⟩)
        · exact Or.inl hx
        · exact Or.inr ⟨j, Or.inr hjL, hje, hxf⟩
      · rintro (hx | ⟨j, hjm, hje, hxf⟩)
        · exact Or.inl hx
        · rcases hjm with rfl | hjL
          · exact absurd rfl hje
          · exact Or.inr ⟨j, hjL, hje, hxf⟩
    · rw [if_neg hj, ih]
      simp only [List.mem_append, List.mem_cons]
      constructor
      · rintro ((hx | hx) | ⟨j2, hjL, hje, hxf⟩)
        · exact Or.inl hx
        · exact Or.inr ⟨j, Or.inl rfl, hj, hx⟩
        · exact Or.inr ⟨j2, Or.inr hjL, hje, hxf⟩
      · rintro (hx | ⟨j2, hjm, hje, hxf⟩)
        · exact Or.inl (Or.inl hx)
        · rcases hjm with rfl | hjL
          · exact Or.inl (Or.inr hxf)
          · exact Or.inr ⟨j2, hjL, hje, hxf⟩

/-- buildNegatives has one array per class. -/
lemma length_buildNegatives (P : List (List ℕ)) :
    (buildNegatives P).length = P.length := by
  simp [buildNegatives]

/-- The negative array of class c, read off the mapped range. -/
lemma nthList_buildNegatives (P : List (List ℕ)) (c : ℕ) (hc : c < P.length) :
    nthList (buildNegatives P) c
      = (List.range P.length).foldl
          (fun acc j => if j = c then acc else acc ++ nthList P j) [] := by
  rw [buildNegatives, nthList_map_range _ c _ hc]

/-- Membership in a negative array: some other class's positives hold x. -/
lemma mem_buildNegatives (P : List (List ℕ)) (c x : ℕ) (hc : c < P.length) :
    x ∈ nthList (buildNegatives P) c ↔
      ∃ j, j < P.length ∧ j ≠ c ∧ x ∈ nthList P j := by
  rw [nthList_buildNegatives P c hc, mem_foldl_skip]
  simp

/-- Claim C1: before any ratio-based subsampling the CRD index arrays
partition the sample indices by class: cls_positives[c] holds exactly the
indices labelled c, cls_negatives[c] exactly the others, so the two are
disjoint and together cover the whole index range. -/
theorem crd_partition {α : Type} (org : CRDSource α) (nns : ℕ) (mode : String)
    (ratio : ℚ) (perm : ℕ → List ℕ → List ℕ)
    (hratio : ¬(0 < ratio ∧ ratio < 1))
    (hlen : org.targets.length = org.len)
    (hL : ∀ l ∈ org.targets, l < org.classes.length)
    (c : ℕ) (hc : c < org.classes.length) (i : ℕ) :
    ((i ∈ nthList (crdInit org nns mode ratio perm).cls_positives c) ↔
      i < org.len ∧ org.targets.getD i 0 = c) ∧
    ((i ∈ nthList (crdInit org nns mode ratio perm).cls_negatives c) ↔
      i < org.len ∧ org.targets.getD i 0 ≠ c) ∧
    (¬((i ∈ nthList (crdInit org nns mode ratio perm).cls_positives c) ∧
       (i ∈ nthList (crdInit org nns mode ratio perm).cls_negatives c))) ∧
    (i < org.len ↔
      ((i ∈ nthList (crdInit org nns mode ratio perm).cls_positives c) ∨
       (i ∈ nthList (crdInit org nns mode ratio perm).cls_negatives c))) := by
  have hL2 : ∀ j ∈ List.range org.len,
      org.targets.getD j 0 < org.classes.length := by
    intro j hj
    rw [List.mem_range] at hj
    have hjlen : j < org.targets.length := by omega
    rw [List.getD_eq_getElem?_getD, List.getElem?_eq_getElem hjlen]
    exact hL _ (List.getElem_mem hjlen)
  have hpos_eq : (crdInit org nns mode ratio perm).cls_positives
      = buildPositives org.targets org.classes.length org.len := rfl
  have hneg_eq : (crdInit org nns mode ratio perm).cls_negatives
      = buildNegatives (buildPositives org.targets org.classes.length org.len) := by
    show (if 0 < ratio ∧ ratio < 1 then _ else crdNegsPre org) = _
    rw [if_neg hratio]
    rfl
  have hcP : c < (buildPositives org.targets org.classes.length org.len).length := by
    rw [length_buildPositives]
    exact hc
  have hp : (i ∈ nthList (crdInit org nns mode ratio perm).cls_positives c) ↔
      i < org.len ∧ org.targets.getD i 0 = c := by
    rw [hpos_eq]
    exact mem_buildPositives _ _ _ hL2 c i
  have hn : (i ∈ nthList (crdInit org nns mode ratio perm).cls_negatives c) ↔
      i < org.len ∧ org.targets.getD i 0 ≠ c := by
    rw [hneg_eq, mem_buildNegatives _ _ _ hcP]
    constructor
    · rintro ⟨j, hj, hjc, hij⟩
      rw [mem_buildPositives _ _ _ hL2] at hij
      refine ⟨hij.1, ?_⟩
      rw [hij.2]
      exact hjc
    · rintro ⟨hiN, hne⟩
      refine ⟨org.targets.getD i 0, ?_, hne, ?_⟩
      · rw [length_buildPositives]
        exact hL2 i (List.mem_range.mpr hiN)
      · rw [mem_buildPositives _ _ _ hL2]
        exact ⟨hiN, rfl⟩
  refine ⟨hp, hn, ?_, ?_⟩
  · rintro ⟨h1, h2⟩
    exact (hn.mp h2).2 (hp.mp h1).2
  · constructor
    · intro hiN
      by_cases hlab : org.targets.getD i 0 = c
      · exact Or.inl (hp.mpr ⟨hiN, hlab⟩)
      · exact Or.inr (hn.mpr ⟨hiN, hlab⟩)
    · rintro (h1 | h1)
      · exact (hp.mp h1).1
      · exact (hn.mp h1).1

/-- Witness for claim C1 on a concrete two-class dataset, class 1,
index 0. -/
theorem crd_partition_witness :
    (((0 : ℕ) ∈ nthList exCRDWrapper.cls_positives 1) ↔
      0 < exCRDSource.len ∧ exCRDSource.targets.getD 0 0 = 1) ∧
    (((0 : ℕ) ∈ nthList exCRDWrapper.cls_negatives 1) ↔
      0 < exCRDSource.len ∧ exCRDSource.targets.getD 0 0 ≠ 1) ∧
    (¬(((0 : ℕ) ∈ nthList exCRDWrapper.cls_positives 1) ∧
       ((0 : ℕ) ∈ nthList exCRDWrapper.cls_negatives 1))) ∧
    (0 < exCRDSource.len ↔
      (((0 : ℕ) ∈ nthList exCRDWrapper.cls_positives 1) ∨
       ((0 : ℕ) ∈ nthList exCRDWrapper.cls_negatives 1))) :=
  crd_partition exCRDSource 1 "relax" 0 (fun _ l => l) (by decide) rfl
    (by decide) 1 (by decide) 0

/-- Claim C9: when 0 < ratio < 1 every class's negative array becomes a
permutation of itself truncated to the n computed once from class 0, its
new length the minimum of n and its own original length; otherwise the
negative arrays are left unsubsampled. -/
theorem crd_ratio_subsample {α : Type} (org : CRDSource α) (nns : ℕ)
    (mode : String) (ratio : ℚ) (perm : ℕ → List ℕ → List ℕ)
    (hperm : ∀ i l, (perm i l).Perm l) :
    (0 < ratio ∧ ratio < 1 →
      ∀ c, c < org.classes.length →
        nthList (crdInit org nns mode ratio perm).cls_negatives c
          = (perm c (nthList (crdNegsPre org) c)).take (crdSubN org ratio) ∧
        (perm c (nthList (crdNegsPre org) c)).Perm
          (nthList (crdNegsPre org) c) ∧
        (nthList (crdInit org nns mode ratio perm).cls_negatives c).length
          = min (crdSubN org ratio) (nthList (crdNegsPre org) c).length) ∧
    (¬(0 < ratio ∧ ratio < 1) →
      (crdInit org nns mode ratio perm).cls_negatives = crdNegsPre org) := by
  constructor
  · intro hcond c hc
    have heq : (crdInit org nns mode ratio perm).cls_negatives
        = (List.range org.classes.length).map
            (fun i => (perm i (nthList (crdNegsPre org) i)).take
              (crdSubN org ratio)) := by
      show (if 0 < ratio ∧ ratio < 1 then _ else _) = _
      rw [if_pos hcond]
    rw [heq, nthList_map_range _ c _ hc]
    refine ⟨rfl, hperm c _, ?_⟩
    rw [List.length_take, (hperm c _).length_eq]
  · intro hcond
    show (if 0 < ratio ∧ ratio < 1 then _ else _) = _
    rw [if_neg hcond]

/-- Witness for claim C9 on the concrete two-class dataset with ratio one
half at class 1. -/
theorem crd_ratio_subsample_witness :
    nthList (crdInit exCRDSource 1 "exact" halfQ (fun _ l => l)).cls_negatives 1
      = (nthList (crdNegsPre exCRDSource) 1).take (crdSubN exCRDSource halfQ) ∧
    (nthList (crdNegsPre exCRDSource) 1).Perm (nthList (crdNegsPre exCRDSource) 1) ∧
    (nthList (crdInit exCRDSource 1 "exact" halfQ (fun _ l => l)).cls_negatives 1).length
      = min (crdSubN exCRDSource halfQ) (nthList (crdNegsPre exCRDSource) 1).length :=
  (crd_ratio_subsample exCRDSource 1 "exact" halfQ (fun _ l => l)
      (fun _ l => List.Perm.refl l)).1 ⟨by decide, by decide⟩ 1 (by decide)

/-- Claim C2 (amended): for a valid mode and valid draws, __getitem__
returns a supp_dict whose contrast_idx has num_negative_samples + 1
entries, headed by the positive index (the queried index in exact mode, a
drawn element of the positives of the target class in relax mode),
followed by drawn elements of the negatives of the target class, without
replacement whenever num_negative_samples fits; the pos_idx entry is the
queried index. -/
theorem crd_getitem_spec {α : Type} (w : CRDWrapper α)
    (choosePos : List ℕ → ℕ) (chooseNeg : List ℕ → ℕ → Bool → List ℕ)
    (index : ℕ)
    (hmode : w.mode = "exact" ∨ w.mode = "relax")
    (hpos : ∀ l, l ≠ [] → choosePos l ∈ l)
    (hlen : ∀ l k, l ≠ [] → (chooseNeg l k (decide (l.length < k))).length = k)
    (hmem : ∀ l k, l ≠ [] → ∀ x ∈ chooseNeg l k (decide (l.length < k)), x ∈ l)
    (hnodup : ∀ l k, k ≤ l.length → l.Nodup → (chooseNeg l k false).Nodup)
    (hposne : w.mode = "relax" →
      nthList w.cls_positives (w.org.getitem index).2 ≠ [])
    (hnegne : nthList w.cls_negatives (w.org.getitem index).2 ≠ []) :
    ∃ supp : CRDSupp,
      crdGetitem w choosePos chooseNeg index
        = some ((w.org.getitem index).1, (w.org.getitem index).2, supp) ∧
      supp.contrast_idx.length = w.num_negative_samples + 1 ∧
      supp.pos_idx = index ∧
      (w.mode = "exact" → supp.contrast_idx.headD 0 = index) ∧
      (w.mode = "relax" → supp.contrast_idx.headD 0
          ∈ nthList w.cls_positives (w.org.getitem index).2) ∧
      (∀ x ∈ supp.contrast_idx.tail,
        x ∈ nthList w.cls_negatives (w.org.getitem index).2) ∧
      (w.num_negative_samples
          ≤ (nthList w.cls_negatives (w.org.getitem index).2).length →
        (nthList w.cls_negatives (w.org.getitem index).2).Nodup →
        supp.contrast_idx.tail.Nodup) := by
  rcases hmode with hm | hm
  · refine ⟨⟨index, index ::
        chooseNeg (nthList w.cls_negatives (w.org.getitem index).2)
          w.num_negative_samples
          (decide ((nthList w.cls_negatives (w.org.getitem index).2).length
            < w.num_negative_samples))⟩,
      ?_, ?_, rfl, ?_, ?_, ?_, ?_⟩
    · simp [crdGetitem, hm]
    · simp [hlen _ _ hnegne]
    · intro _
      rfl
    · intro hrel
      rw [hm] at hrel
      exact absurd hrel (by decide)
    · intro x hx
      exact hmem _ _ hnegne x (by simpa using hx)
    · intro hk hnd
      have hd : decide ((nthList w.cls_negatives (w.org.getitem index).2).length
          < w.num_negative_samples) = false := by
        simp [Nat.not_lt.mpr hk]
      simp only [List.tail_cons]
      rw [hd]
      exact hnodup _ _ hk hnd
  · refine ⟨⟨index,
        choosePos (nthList w.cls_positives (w.org.getitem index).2) ::
        chooseNeg (nthList w.cls_negatives (w.org.getitem index).2)
          w.num_negative_samples
          (decide ((nthList w.cls_negatives (w.org.getitem index).2).length
            < w.num_negative_samples))⟩,
      ?_, ?_, rfl, ?_, ?_, ?_, ?_⟩
    · simp [crdGetitem, hm]
    · simp [hlen _ _ hnegne]
    · intro hex
      rw [hm] at hex
      exact absurd hex (by decide)
    · intro _
      simp only [List.headD_cons]
      exact hpos _ (hposne hm)
    · intro x hx
      exact hmem _ _ hnegne x (by simpa using hx)
    · intro hk hnd
      have hd : decide ((nthList w.cls_negatives (w.org.getitem index).2).length
          < w.num_negative_samples) = false := by
        simp [Nat.not_lt.mpr hk]
      simp only [List.tail_cons]
      rw [hd]
      exact hnodup _ _ hk hnd

/-- Witness for the amended claim C2: on the concrete relax-mode wrapper
the call succeeds and its pos_idx entry is the queried index 2. -/
theorem crd_getitem_spec_witness :
    (crdGetitem exCRDWrapper exChoosePos exChooseNeg 2).isSome = true ∧
    (crdGetitem exCRDWrapper exChoosePos exChooseNeg 2).map
        (fun r => r.2.2.pos_idx) = some 2 := by
  obtain ⟨supp, heq, -, hp, -, -, -, -⟩ :=
    crd_getitem_spec exCRDWrapper exChoosePos exChooseNeg 2 (Or.inr rfl)
      (by
        intro l hl
        cases l with
        | nil => exact absurd rfl hl
        | cons a t => exact List.mem_cons_self a t)
      (by
        intro l k hl
        by_cases h : l.length < k
        · simp [exChooseNeg, h]
        · simp [exChooseNeg, h, Nat.min_eq_left (Nat.le_of_not_lt h)])
      (by
        intro l k hl x hx
        by_cases h : l.length < k
        · simp [exChooseNeg, h] at hx
          rcases hx with ⟨-, rfl⟩
          cases l with
          | nil => exact absurd rfl hl
          | cons a t => exact List.mem_cons_self a t
        · simp [exChooseNeg, h] at hx
          exact List.mem_of_mem_take hx)
      (by
        intro l k _ hnd
        exact hnd.sublist (List.take_sublist k l))
      (fun _ => by decide)
      (by decide)
  rw [heq]
  simp [hp]

/-- Counterexample to claim C2 as stated: on the concrete relax-mode
wrapper with a valid draw, the queried index is 2, the drawn positive
index heading contrast_idx is 1, and the supp_dict pos_idx entry is 2,
so the pos_idx entry differs from the positive index. -/
theorem crd_getitem_posidx_counterexample :
    crdGetitem exCRDWrapper exChoosePos exChooseNeg 2
      = some ((), 1, { pos_idx := 2, contrast_idx := [1, 0] }) ∧
    exCRDWrapper.mode = "relax" ∧
    (exChoosePos (nthList exCRDWrapper.cls_positives 1)
      ∈ nthList exCRDWrapper.cls_positives 1) ∧
    ((crdGetitem exCRDWrapper exChoosePos exChooseNeg 2).map
        (fun r => r.2.2.contrast_idx.headD 0)
      ≠ (crdGetitem exCRDWrapper exChoosePos exChooseNeg 2).map
        (fun r => r.2.2.pos_idx)) := by
  decide
